import Mathlib

/-!
Verification of the bulk DNS-resolution engine in `common/resolve.py` of
OneForAll.  The Python functions are embedded shallowly: Python dicts become
association lists with unique keys, `None` becomes `Option.none`, a raised
exception becomes an `Option.none` result, and the external
`socket.gethostbyname_ex` call becomes an oracle parameter.
-/

namespace OneForAll

/-- Python single-quote character, used by the `str` renderings below. -/
def sq : Char := Char.ofNat 39

/-- Python `repr` of a simple string (one with no quote and no escape-worthy
character): the string wrapped in single quotes. -/
def pyReprStr (s : String) : String :=
  String.mk (sq :: (s.data ++ [sq]))

/-- Python `str(lst)[1:-1]` for a list of simple strings: the comma-separated
single-quoted elements without the surrounding brackets.  This is exactly what
`convert_results` stores in the `ips` field (resolve.py line 58). -/
def pyStrListInner : List String → String
  | [] => ""
  | [x] => pyReprStr x
  | x :: y :: rest => pyReprStr x ++ ", " ++ pyStrListInner (y :: rest)

/-- Python `str` of a tuple of simple strings, modelling `str(e.args)` in
`convert_results` (resolve.py line 61). -/
def pyStrTuple : List String → String
  | [] => "()"
  | [x] => "(" ++ pyReprStr x ++ ",)"
  | x :: y :: rest => "(" ++ pyStrListInner (x :: y :: rest) ++ ")"

/-- Character data following the first rendered element of a list: empty for a
singleton list, otherwise the `", "` separator followed by the rendering of
the remaining elements. -/
def innerTail : List String → List Char
  | [] => []
  | y :: ys => (", " : String).data ++ (pyStrListInner (y :: ys)).data

/-- Model of a raised Python `BaseException`: `isException` records whether the
object is an instance of `Exception` (the `isinstance(answer, Exception)` test
in `convert_results`; `KeyboardInterrupt` and `SystemExit` are `BaseException`
but not `Exception`), and `args` models `e.args` as a tuple of strings. -/
structure PyBaseException where
  isException : Bool
  args : List String
deriving Repr, DecidableEq

/-- Result of one call of the external `socket.gethostbyname_ex`: either a
normal return `(hostname, aliaslist, ipaddrlist)` or a raised exception. -/
inductive RawResult where
  | ok (host : String) (aliases : List String) (ips : List String)
  | raised (e : PyBaseException)
deriving Repr, DecidableEq

/-- The `answer` half of the pair returned by `aiodns_query_a`: either the
address tuple returned by `gethostbyname_ex` or the caught exception object. -/
inductive Answer where
  | tuple (host : String) (aliases : List String) (ips : List String)
  | exc (e : PyBaseException)
deriving Repr, DecidableEq

/-- Shallow embedding of `aiodns_query_a` (resolve.py lines 26-43).  The
external `socket.gethostbyname_ex` behaviour is the oracle `g`; the
`try/except BaseException` block turns any raised exception into the `answer`
value, so the function always returns the pair `(hostname, answer)`. -/
def aiodns_query_a (g : String → RawResult) (hostname : String) : String × Answer :=
  match g hostname with
  | RawResult.ok h al ips => (hostname, Answer.tuple h al ips)
  | RawResult.raised e => (hostname, Answer.exc e)

/-- The per-hostname value dictionary `{'ips': ..., 'reason': ..., 'valid': ...}`
built by `convert_results` (resolve.py line 56). -/
structure ValueDict where
  ips : Option String
  reason : Option String
  valid : Option Nat
deriving Repr, DecidableEq

/-- Value dictionary `convert_results` builds for one answer (lines 56-66):
an address tuple stores the bracket-stripped `str` of the ip list; an
`Exception` stores `str(e.args)` and `valid = 0`; any other value (a
`BaseException` that is not an `Exception`) stores only `valid = 0`. -/
def answerValue : Answer → ValueDict
  | Answer.tuple _ _ ips =>
      { ips := some (pyStrListInner ips), reason := none, valid := none }
  | Answer.exc e =>
      if e.isException then
        { ips := none, reason := some (pyStrTuple e.args), valid := some 0 }
      else
        { ips := none, reason := none, valid := some 0 }

/-- Lookup `d.get(k)` in a Python dict modelled as an association list with
unique keys; a miss returns `None`. -/
def dictGet : List (String × ValueDict) → String → Option ValueDict
  | [], _ => none
  | (k, v) :: rest, key => if key = k then some v else dictGet rest key

/-- Insertion `d[k] = v` into a Python dict modelled as an association list:
overwrite in place when the key is present, append otherwise. -/
def dictInsert (d : List (String × ValueDict)) (k : String) (v : ValueDict) :
    List (String × ValueDict) :=
  if (dictGet d k).isSome then
    d.map (fun p => if p.1 = k then (k, v) else p)
  else d ++ [(k, v)]

/-- Shallow embedding of `convert_results` (resolve.py lines 46-67): fold the
`(hostname, answer)` pairs into a hostname-keyed dict of value dictionaries. -/
def convert_results (result_list : List (String × Answer)) : List (String × ValueDict) :=
  result_list.foldl (fun acc r => dictInsert acc r.1 (answerValue r.2)) []

/-- One record of the data list handled by `filter_subdomain` and
`update_data`: a Python dict with at least the keys `subdomain`, `ips`,
`reason` and `valid`; `others` carries the remaining key-value pairs of the
record, which resolution never touches. -/
structure HostRecord where
  subdomain : String
  ips : Option String
  reason : Option String
  valid : Option Nat
  others : List (String × String)
deriving Repr, DecidableEq

/-- Python truthiness of an `ips` value: `not data.get('ips')` is `True`
exactly when the field is `None` or the empty string. -/
def pyTruthy : Option String → Bool
  | none => false
  | some s => s != ""

/-- Shallow embedding of `filter_subdomain` (resolve.py lines 70-82): collect,
in their original order, the `subdomain` of every record whose `ips` value is
falsy. -/
def filter_subdomain : List HostRecord → List String
  | [] => []
  | data :: rest =>
      if pyTruthy data.ips then filter_subdomain rest
      else data.subdomain :: filter_subdomain rest

/-- Python `data.update(value_dict)` for the dictionaries of `update_data`:
overwrite the `ips`, `reason` and `valid` keys of the record with the values
from the dictionary, leaving `subdomain` and every other key unchanged. -/
def updateRecord (data : HostRecord) (v : ValueDict) : HostRecord :=
  { data with ips := v.ips, reason := v.reason, valid := v.valid }

/-- One iteration of the `update_data` loop (resolve.py lines 93-98) on a
single record: a record with truthy `ips` is left alone; otherwise the record
is updated with `results_dict.get(subdomain)`.  Since `dict.get` yields `None`
on a miss and `data.update(None)` raises `TypeError`, the miss case is
modelled by `none`. -/
def applyOutcome (results_dict : List (String × ValueDict)) (data : HostRecord) :
    Option HostRecord :=
  if pyTruthy data.ips then some data
  else
    match dictGet results_dict data.subdomain with
    | none => none
    | some v => some (updateRecord data v)

/-- Shallow embedding of `update_data` (resolve.py lines 85-99): update every
record whose `ips` is falsy from the results dict; `none` models the
`TypeError` raised when such a record's subdomain is missing from the dict. -/
def update_data : List HostRecord → List (String × ValueDict) → Option (List HostRecord)
  | [], _ => some []
  | data :: rest, results_dict =>
      match applyOutcome results_dict data with
      | none => none
      | some data2 =>
          match update_data rest results_dict with
          | none => none
          | some rest2 => some (data2 :: rest2)

/-- One run of the `resolve_progress` polling loop (resolve.py lines 128-133),
where `qs t` is the queue size seen by the `t`-th poll and `total` is fixed;
the result is the number of loop iterations executed before `break`, or `none`
when the fuel runs out before `done == total` is observed. -/
def monitorLoop (qs : Nat → Nat) (total : Nat) : Nat → Nat → Option Nat
  | 0, _ => none
  | fuel + 1, t => if qs t = total then some (t + 1) else monitorLoop qs total fuel (t + 1)

/-- Shallow embedding of `resolve_progress` (resolve.py lines 116-134): poll
the progress queue, starting at poll `0`, until the completed count equals
`total`. -/
def resolve_progress (qs : Nat → Nat) (total : Nat) (fuel : Nat) : Option Nat :=
  monitorLoop qs total fuel 0

/-- Observable effects of one `aio_resolve` call (resolve.py lines 150-167):
whether the progress monitor was scheduled (`run_in_executor`, line 162),
the `total` it was given, the number of worker processes the pool was created
with (line 164), the number of `pr_queue.put(1)` progress increments performed
by the queries, and the outcome list returned by `pool.map`. -/
structure AioResolveRun where
  monitor_started : Bool
  monitor_total : Nat
  pool_processes : Nat
  progress_puts : Nat
  results : List (String × Answer)
deriving Repr, DecidableEq

/-- Shallow embedding of `aio_resolve` (resolve.py lines 150-167): the monitor
is always started with `total = len(subdomain_list)` (line 162 runs before any
length check — there is none), the pool is always created with `process_num`
worker processes, and `pool.map(wrapped_query, subdomain_list)` returns, in
input order, one `aio_query` result per subdomain, each contributing one
progress increment. -/
def aio_resolve (g : String → RawResult) (subdomain_list : List String)
    (process_num coroutine_num : Nat) : AioResolveRun :=
  { monitor_started := true,
    monitor_total := subdomain_list.length,
    pool_processes := process_num,
    progress_puts := subdomain_list.length,
    results := subdomain_list.map (aiodns_query_a g) }

/-- Concrete record with no resolution data, used in instantiations. -/
def sampleMissing : HostRecord :=
  { subdomain := "x.example.com", ips := none, reason := none, valid := none, others := [] }

/-- Concrete pending record that will resolve successfully. -/
def sampleA : HostRecord :=
  { subdomain := "a.example.com", ips := none, reason := none, valid := none,
    others := [("source", "brute")] }

/-- Concrete record whose `ips` is the empty string, hence falsy. -/
def sampleB : HostRecord :=
  { subdomain := "b.example.com", ips := some "", reason := none, valid := none, others := [] }

/-- Concrete record that already carries an address before the batch. -/
def sampleResolved : HostRecord :=
  { subdomain := "c.example.com", ips := some "9.9.9.9", reason := none, valid := none,
    others := [] }

/-- Concrete outcome list: one success, two failures. -/
def sampleOutcomes : List (String × Answer) :=
  [("a.example.com", Answer.tuple "a.example.com" [] ["1.2.3.4"]),
   ("b.example.com", Answer.exc { isException := true, args := ["timeout"] }),
   ("c.example.com", Answer.exc { isException := true, args := ["late"] })]

/-- Concrete outcome map derived from `sampleOutcomes`. -/
def sampleDict : List (String × ValueDict) := convert_results sampleOutcomes

/-- Value dictionary of a concrete successful resolution. -/
def sampleSuccessEntry : ValueDict :=
  { ips := some (pyStrListInner ["1.2.3.4"]), reason := none, valid := none }

/-- Value dictionary of a concrete timeout failure. -/
def sampleFailureEntry : ValueDict :=
  { ips := none, reason := some (pyStrTuple ["timeout"]), valid := some 0 }

/-- Concrete resolution oracle: one host resolves, every other one times out. -/
def sampleOracle : String → RawResult := fun h =>
  if h = "a.example.com" then RawResult.ok "a.example.com" [] ["1.2.3.4"]
  else RawResult.raised { isException := true, args := ["timeout"] }

/-- The first component of an `aiodns_query_a` result is always the queried
hostname, whatever the oracle does. -/
theorem aiodns_query_a_fst (g : String → RawResult) (hostname : String) :
    (aiodns_query_a g hostname).1 = hostname := by
  unfold aiodns_query_a
  cases g hostname <;> rfl

/-- Characterisation of `filter_subdomain` as a filter-then-project. -/
theorem filter_subdomain_eq (l : List HostRecord) :
    filter_subdomain l = (l.filter (fun d => !pyTruthy d.ips)).map (fun d => d.subdomain) := by
  induction l with
  | nil => rfl
  | cons d rest ih =>
      cases h : pyTruthy d.ips <;>
        simp [filter_subdomain, List.filter_cons, h, ih]

/-- Membership in the `filter_subdomain` output. -/
theorem mem_filter_subdomain (l : List HostRecord) (s : String) :
    s ∈ filter_subdomain l ↔ ∃ r, r ∈ l ∧ pyTruthy r.ips = false ∧ r.subdomain = s := by
  rw [filter_subdomain_eq]
  simp only [List.mem_map, List.mem_filter, Bool.not_eq_eq_eq_not, Bool.not_true]
  constructor
  · rintro ⟨r, ⟨hr, hp⟩, hs⟩
    exact ⟨r, hr, hp, hs⟩
  · rintro ⟨r, hr, hp, hs⟩
    exact ⟨r, ⟨hr, hp⟩, hs⟩

/-- A successful `update_data` run preserves the length of the record list. -/
theorem update_data_length {l l2 : List HostRecord} {d : List (String × ValueDict)}
    (h : update_data l d = some l2) : l2.length = l.length := by
  induction l generalizing l2 with
  | nil =>
      simp only [update_data, Option.some.injEq] at h
      subst h; rfl
  | cons data rest ih =>
      cases ha : applyOutcome d data with
      | none => simp [update_data, ha] at h
      | some data2 =>
          cases hr : update_data rest d with
          | none => simp [update_data, ha, hr] at h
          | some rest2 =>
              simp only [update_data, ha, hr, Option.some.injEq] at h
              subst h
              simp [ih hr]

/-- A successful `update_data` run applies `applyOutcome` pointwise. -/
theorem update_data_get {l l2 : List HostRecord} {d : List (String × ValueDict)}
    (h : update_data l d = some l2) :
    ∀ i (hi : i < l.length) (hi2 : i < l2.length),
      applyOutcome d (l.get ⟨i, hi⟩) = some (l2.get ⟨i, hi2⟩) := by
  induction l generalizing l2 with
  | nil => intro i hi _; simp at hi
  | cons data rest ih =>
      cases ha : applyOutcome d data with
      | none => simp [update_data, ha] at h
      | some data2 =>
          cases hr : update_data rest d with
          | none => simp [update_data, ha, hr] at h
          | some rest2 =>
              simp only [update_data, ha, hr, Option.some.injEq] at h
              subst h
              intro i hi hi2
              cases i with
              | zero => simpa using ha
              | succ n =>
                  exact ih hr n (Nat.lt_of_succ_lt_succ hi) (Nat.lt_of_succ_lt_succ hi2)

/-- When any record of the list makes its loop iteration raise, the whole
`update_data` call raises. -/
theorem update_data_none {l : List HostRecord} {d : List (String × ValueDict)}
    {r : HostRecord} (hr : r ∈ l) (ha : applyOutcome d r = none) :
    update_data l d = none := by
  induction l with
  | nil => cases hr
  | cons data rest ih =>
      rcases List.mem_cons.mp hr with h | h
      · subst h; simp [update_data, ha]
      · cases hx : applyOutcome d data with
        | none => simp [update_data, hx]
        | some data2 => simp [update_data, hx, ih h]

/-- A record with truthy `ips` passes through the `update_data` loop
iteration unchanged. -/
theorem applyOutcome_truthy {d : List (String × ValueDict)} {r : HostRecord}
    (ht : pyTruthy r.ips = true) : applyOutcome d r = some r := by
  simp [applyOutcome, ht]

/-- A record already produced by one loop iteration of `update_data` is a
fixed point of the iteration. -/
theorem applyOutcome_idem {d : List (String × ValueDict)} {r r2 : HostRecord}
    (h : applyOutcome d r = some r2) : applyOutcome d r2 = some r2 := by
  cases ht : pyTruthy r.ips with
  | true =>
      simp only [applyOutcome, ht, if_true] at h
      cases h; simp [applyOutcome, ht]
  | false =>
      simp only [applyOutcome, ht, Bool.false_eq_true, if_false] at h
      cases hg : dictGet d r.subdomain with
      | none => simp [hg] at h
      | some v =>
          simp only [hg, Option.some.injEq] at h
          subst h
          have hsub : (updateRecord r v).subdomain = r.subdomain := rfl
          cases ht2 : pyTruthy (updateRecord r v).ips with
          | true => simp [applyOutcome, ht2]
          | false => simp [applyOutcome, ht2, hsub, hg, updateRecord]

/-- Fixed-point property of a successful `update_data` run: running it again
changes nothing. -/
theorem update_data_idem {l l2 : List HostRecord} {d : List (String × ValueDict)}
    (h : update_data l d = some l2) : update_data l2 d = some l2 := by
  induction l generalizing l2 with
  | nil =>
      simp only [update_data, Option.some.injEq] at h
      subst h; rfl
  | cons data rest ih =>
      cases ha : applyOutcome d data with
      | none => simp [update_data, ha] at h
      | some data2 =>
          cases hr : update_data rest d with
          | none => simp [update_data, ha, hr] at h
          | some rest2 =>
              simp only [update_data, ha, hr, Option.some.injEq] at h
              subst h
              simp [update_data, applyOutcome_idem ha, ih hr]

/-- Lookup distributes over appended dictionaries, preferring the left part. -/
theorem dictGet_append (d1 d2 : List (String × ValueDict)) (k : String) :
    dictGet (d1 ++ d2) k =
      match dictGet d1 k with
      | some v => some v
      | none => dictGet d2 k := by
  induction d1 with
  | nil => rfl
  | cons p rest ih =>
      obtain ⟨k1, v1⟩ := p
      by_cases h : k = k1
      · simp [dictGet, h]
      · simp [dictGet, h, ih]

/-- Every entry of `dictInsert d k val` is either an old entry of `d` or the
newly written pair. -/
theorem mem_dictInsert {d : List (String × ValueDict)} {k h : String} {val v : ValueDict}
    (hm : (h, v) ∈ dictInsert d k val) : (h, v) ∈ d ∨ (h = k ∧ v = val) := by
  unfold dictInsert at hm
  split at hm
  · simp only [List.mem_map] at hm
    rcases hm with ⟨p, hp, he⟩
    by_cases hk : p.1 = k
    · simp only [hk, if_true] at he
      right
      exact ⟨(congrArg Prod.fst he).symm, (congrArg Prod.snd he).symm⟩
    · simp only [hk, if_false] at he
      left
      rw [← he]; exact hp
  · simp only [List.mem_append, List.mem_singleton, Prod.mk.injEq] at hm
    rcases hm with hm | hm
    · exact Or.inl hm
    · exact Or.inr hm

/-- Invariant of the `convert_results` fold: every entry of the accumulator
either was there already or records the converted answer of some processed
pair. -/
theorem foldl_convert_mem (l : List (String × Answer)) :
    ∀ (acc : List (String × ValueDict)) (h : String) (v : ValueDict),
      (h, v) ∈ l.foldl (fun acc r => dictInsert acc r.1 (answerValue r.2)) acc →
      (h, v) ∈ acc ∨ ∃ a, (h, a) ∈ l ∧ v = answerValue a := by
  induction l with
  | nil => intro acc h v hm; exact Or.inl hm
  | cons p rest ih =>
      intro acc h v hm
      simp only [List.foldl_cons] at hm
      rcases ih _ h v hm with hin | ⟨a, ha, hv⟩
      · rcases mem_dictInsert hin with hin2 | ⟨he, hv⟩
        · exact Or.inl hin2
        · refine Or.inr ⟨p.2, ?_, hv⟩
          rw [he, Prod.mk.eta]
          exact List.mem_cons_self _ _
      · exact Or.inr ⟨a, List.mem_cons_of_mem _ ha, hv⟩

/-- Every entry of the dict built by `convert_results` is the converted answer
of one of the input pairs. -/
theorem convert_results_mem {l : List (String × Answer)} {h : String} {v : ValueDict}
    (hm : (h, v) ∈ convert_results l) : ∃ a, (h, a) ∈ l ∧ v = answerValue a := by
  rcases foldl_convert_mem l [] h v hm with hin | hx
  · cases hin
  · exact hx

/-- On duplicate-free hostnames the `convert_results` fold only ever appends,
so the dict is the pointwise conversion of the input list. -/
theorem foldl_convert_nodup (l : List (String × Answer)) :
    ∀ acc : List (String × ValueDict),
      (∀ p ∈ l, dictGet acc p.1 = none) → (l.map Prod.fst).Nodup →
      l.foldl (fun acc r => dictInsert acc r.1 (answerValue r.2)) acc =
        acc ++ l.map (fun p => (p.1, answerValue p.2)) := by
  induction l with
  | nil => intro acc _ _; simp
  | cons p rest ih =>
      intro acc hdis hnd
      have h0 : dictGet acc p.1 = none := hdis p (List.mem_cons_self _ _)
      have hstep : dictInsert acc p.1 (answerValue p.2) = acc ++ [(p.1, answerValue p.2)] := by
        simp [dictInsert, h0]
      simp only [List.map_cons, List.nodup_cons] at hnd
      simp only [List.foldl_cons, hstep]
      rw [ih (acc ++ [(p.1, answerValue p.2)]) ?_ hnd.2]
      · simp
      · intro q hq
        rw [dictGet_append]
        have hq0 : dictGet acc q.1 = none := hdis q (List.mem_cons_of_mem _ hq)
        have hne : q.1 ≠ p.1 := by
          intro hcontra
          exact hnd.1 (hcontra ▸ List.mem_map_of_mem Prod.fst hq)
        simp [hq0, dictGet, hne]

/-- With duplicate-free hostnames, `convert_results` is the pointwise
conversion of the input pairs. -/
theorem convert_results_nodup {l : List (String × Answer)}
    (hnd : (l.map Prod.fst).Nodup) :
    convert_results l = l.map (fun p => (p.1, answerValue p.2)) := by
  have := foldl_convert_nodup l [] (fun p _ => rfl) hnd
  simpa [convert_results] using this

/-- Looking up a hostname in the pointwise-converted dict finds the converted
answer of that hostname, provided hostnames are duplicate-free. -/
theorem dictGet_map_eq {l : List (String × Answer)} {h : String} {a : Answer}
    (hnd : (l.map Prod.fst).Nodup) (hm : (h, a) ∈ l) :
    dictGet (l.map (fun p => (p.1, answerValue p.2))) h = some (answerValue a) := by
  induction l with
  | nil => cases hm
  | cons p rest ih =>
      simp only [List.map_cons, List.nodup_cons] at hnd
      rcases List.mem_cons.mp hm with he | hme
      · rw [← he]
        simp [dictGet]
      · have hne : h ≠ p.1 := by
          intro hcontra
          have : p.1 ∈ rest.map Prod.fst := by
            rw [← hcontra]
            exact List.mem_map_of_mem Prod.fst hme
          exact hnd.1 this
        simp only [List.map_cons, dictGet, hne, if_false]
        exact ih hnd.2 hme

/-- Character data of the `", "` separator. -/
theorem sep_data : (", " : String).data = [Char.ofNat 44, Char.ofNat 32] := by decide

/-- Cancellation around a marker character: lists free of the marker are
uniquely delimited by it. -/
theorem append_sep_cancel (q : Char) :
    ∀ a b r s : List Char, q ∉ a → q ∉ b → a ++ q :: r = b ++ q :: s → a = b ∧ r = s := by
  intro a
  induction a with
  | nil =>
      intro b r s _ hqb hab
      cases b with
      | nil =>
          simp only [List.nil_append, List.cons.injEq] at hab
          exact ⟨rfl, hab.2⟩
      | cons c cs =>
          simp only [List.nil_append, List.cons_append, List.cons.injEq] at hab
          exact absurd (by rw [hab.1]; exact List.mem_cons_self c cs) hqb
  | cons c cs ih =>
      intro b r s hqa hqb hab
      cases b with
      | nil =>
          simp only [List.nil_append, List.cons_append, List.cons.injEq] at hab
          exact absurd (by rw [← hab.1]; exact List.mem_cons_self c cs) hqa
      | cons c2 cs2 =>
          simp only [List.cons_append, List.cons.injEq] at hab
          obtain ⟨hc, htail⟩ := hab
          obtain ⟨h1, h2⟩ := ih cs2 r s (fun hq => hqa (List.mem_cons_of_mem _ hq))
            (fun hq => hqb (List.mem_cons_of_mem _ hq)) htail
          exact ⟨by rw [hc, h1], h2⟩

/-- Data-level shape of the bracket-stripped list rendering. -/
theorem pyStrListInner_cons_data (x : String) (rest : List String) :
    (pyStrListInner (x :: rest)).data = sq :: (x.data ++ sq :: innerTail rest) := by
  cases rest with
  | nil => rfl
  | cons y ys =>
      show ((pyReprStr x ++ ", ") ++ pyStrListInner (y :: ys)).data = _
      rw [String.data_append, String.data_append]
      show ((String.mk (sq :: (x.data ++ [sq]))).data ++ _) ++ _ = _
      simp [innerTail, List.append_assoc]

/-- The bracket-stripped Python rendering is injective on lists of quote-free
strings: the stored `ips` string determines the ordered address list. -/
theorem pyStrListInner_inj :
    ∀ l1 l2 : List String, (∀ x ∈ l1, sq ∉ x.data) → (∀ x ∈ l2, sq ∉ x.data) →
      pyStrListInner l1 = pyStrListInner l2 → l1 = l2 := by
  intro l1
  induction l1 with
  | nil =>
      intro l2 _ _ heq
      cases l2 with
      | nil => rfl
      | cons y ys =>
          exfalso
          have hd : ([] : List Char) = (pyStrListInner (y :: ys)).data := by
            rw [← heq]; rfl
          rw [pyStrListInner_cons_data] at hd
          cases hd
  | cons x xs ih =>
      intro l2 h1 h2 heq
      cases l2 with
      | nil =>
          exfalso
          have hd : (pyStrListInner (x :: xs)).data = ([] : List Char) := by
            rw [heq]; rfl
          rw [pyStrListInner_cons_data] at hd
          cases hd
      | cons y ys =>
          have hd : (pyStrListInner (x :: xs)).data = (pyStrListInner (y :: ys)).data := by
            rw [heq]
          rw [pyStrListInner_cons_data, pyStrListInner_cons_data] at hd
          simp only [List.cons.injEq, true_and] at hd
          obtain ⟨hxy, htail⟩ := append_sep_cancel sq x.data y.data (innerTail xs)
            (innerTail ys) (h1 x (List.mem_cons_self _ _)) (h2 y (List.mem_cons_self _ _)) hd
          have hx : x = y := String.ext hxy
          cases xs with
          | nil =>
              cases ys with
              | nil => rw [hx]
              | cons z zs =>
                  exfalso
                  simp only [innerTail, sep_data, List.cons_append] at htail
                  cases htail
          | cons w ws =>
              cases ys with
              | nil =>
                  exfalso
                  simp only [innerTail, sep_data, List.cons_append] at htail
                  cases htail
              | cons z zs =>
                  simp only [innerTail] at htail
                  have hs : pyStrListInner (w :: ws) = pyStrListInner (z :: zs) :=
                    String.ext (List.append_cancel_left htail)
                  have hrest := ih (z :: zs) (fun u hu => h1 u (List.mem_cons_of_mem _ hu))
                    (fun u hu => h2 u (List.mem_cons_of_mem _ hu)) hs
                  rw [hx, hrest]

/-- C1 counterexample: with one still-pending record and an empty outcome map,
`update_data` raises a `TypeError` (`data.update(None)`, modelled by `none`)
instead of returning the record list with the record left untouched — the
lookup miss is not a defensive no-op. -/
theorem C1_counterexample :
    update_data [sampleMissing] [] = none ∧
    update_data [sampleMissing] [] ≠ some [sampleMissing] := by
  refine ⟨rfl, ?_⟩
  intro h
  cases h

/-- C1 (amended): for every record list and outcome map, whenever some record
that is still missing addresses has a hostname that is not a key of the
outcome map, `merge` (`update_data`) raises — modelled by returning `none` —
rather than leaving the record untouched and returning the list. -/
theorem C1_merge_raises_on_missing_key (l : List HostRecord)
    (d : List (String × ValueDict)) (r : HostRecord) (hr : r ∈ l)
    (hp : pyTruthy r.ips = false) (hmiss : dictGet d r.subdomain = none) :
    update_data l d = none := by
  apply update_data_none hr
  simp [applyOutcome, hp, hmiss]

/-- C1 witness: the amended theorem instantiated on a concrete pending record
and the empty outcome map. -/
theorem C1_witness :
    (sampleMissing ∈ [sampleMissing] ∧ pyTruthy sampleMissing.ips = false ∧
      dictGet [] sampleMissing.subdomain = none) ∧
    update_data [sampleMissing] [] = none :=
  ⟨⟨by decide, by decide, by decide⟩,
   C1_merge_raises_on_missing_key [sampleMissing] [] sampleMissing
     (by decide) (by decide) (by decide)⟩

/-- C2 counterexample: an answer that is neither an address tuple nor an
`Exception` (a `BaseException` such as `KeyboardInterrupt`) produces a map
entry in which neither `ips` (addresses) nor `reason` (failure_reason) is set,
refuting the never-neither half of the conversion law. -/
theorem C2_counterexample :
    dictGet
        (convert_results
          [("h.example.com", Answer.exc { isException := false, args := [] })])
        "h.example.com" =
      some { ips := none, reason := none, valid := some 0 } := by
  decide

/-- C2 (amended): no entry of the converted map ever has both `ips` and
`reason` set; every entry is the conversion of some input answer; an entry has
neither field set exactly when that answer was neither an address tuple nor an
`Exception`, and in that case `valid = 0`. -/
theorem C2_conversion_law (l : List (String × Answer)) (h : String) (v : ValueDict)
    (hm : (h, v) ∈ convert_results l) :
    ¬(v.ips.isSome = true ∧ v.reason.isSome = true) ∧
    (v.ips = none ∧ v.reason = none → v.valid = some 0) ∧
    ∃ a, (h, a) ∈ l ∧ v = answerValue a ∧
      ((v.ips = none ∧ v.reason = none) ↔ ∃ e, a = Answer.exc e ∧ e.isException = false) := by
  obtain ⟨a, ha, hv⟩ := convert_results_mem hm
  subst hv
  refine ⟨?_, ?_, a, ha, rfl, ?_⟩ <;>
  · cases a with
    | tuple host al ips => simp [answerValue]
    | exc e => cases he : e.isException <;> simp [answerValue, he]

/-- C2 witness: the amended conversion law instantiated on a concrete timeout
failure entry, where exactly the `reason` field is set. -/
theorem C2_witness :
    (("b.example.com", sampleFailureEntry) ∈
      convert_results
        [("b.example.com", Answer.exc { isException := true, args := ["timeout"] })]) ∧
    (¬(sampleFailureEntry.ips.isSome = true ∧ sampleFailureEntry.reason.isSome = true) ∧
      (sampleFailureEntry.ips = none ∧ sampleFailureEntry.reason = none →
        sampleFailureEntry.valid = some 0) ∧
      ∃ a, ("b.example.com", a) ∈
          [("b.example.com", Answer.exc { isException := true, args := ["timeout"] })] ∧
        sampleFailureEntry = answerValue a ∧
        ((sampleFailureEntry.ips = none ∧ sampleFailureEntry.reason = none) ↔
          ∃ e, a = Answer.exc e ∧ e.isException = false)) :=
  ⟨by decide, C2_conversion_law _ _ _ (by decide)⟩

/-- C3: for every successful outcome in a duplicate-free outcome list, the
converted map entry stores under `ips` precisely the Python string rendering
(brackets stripped) of the ordered address list of the outcome, with `reason`
and `valid` left unset; the rendering is injective on quote-free address
strings, so the entry determines the ordered address list itself. -/
theorem C3_success_entry (l : List (String × Answer)) (h host : String)
    (al ips : List String) (hnd : (l.map Prod.fst).Nodup)
    (hm : (h, Answer.tuple host al ips) ∈ l) :
    dictGet (convert_results l) h =
      some { ips := some (pyStrListInner ips), reason := none, valid := none } ∧
    ∀ l1 l2 : List String, (∀ x ∈ l1, sq ∉ x.data) → (∀ x ∈ l2, sq ∉ x.data) →
      pyStrListInner l1 = pyStrListInner l2 → l1 = l2 := by
  refine ⟨?_, pyStrListInner_inj⟩
  rw [convert_results_nodup hnd]
  have hx := dictGet_map_eq hnd hm
  simpa [answerValue] using hx

/-- C3 witness: the spec scenario — `a.example.com` resolves to `["1.2.3.4"]`
while `b.example.com` times out — instantiating the success-entry theorem. -/
theorem C3_witness :
    ((sampleOutcomes.map Prod.fst).Nodup ∧
      ("a.example.com", Answer.tuple "a.example.com" [] ["1.2.3.4"]) ∈ sampleOutcomes) ∧
    (dictGet (convert_results sampleOutcomes) "a.example.com" =
        some { ips := some (pyStrListInner ["1.2.3.4"]), reason := none, valid := none } ∧
      ∀ l1 l2 : List String, (∀ x ∈ l1, sq ∉ x.data) → (∀ x ∈ l2, sq ∉ x.data) →
        pyStrListInner l1 = pyStrListInner l2 → l1 = l2) :=
  ⟨⟨by decide, by decide⟩,
   C3_success_entry sampleOutcomes "a.example.com" "a.example.com" [] ["1.2.3.4"]
     (by decide) (by decide)⟩

/-- C4: for every non-empty duplicate-free hostname list, `aio_resolve`
returns exactly one outcome per input hostname, keyed by exactly the input
hostnames in input order — no drops, no duplicates. -/
theorem C4_cardinality (g : String → RawResult) (l : List String) (p c : Nat)
    (h1 : l ≠ []) (h2 : l.Nodup) :
    (aio_resolve g l p c).results.length = l.length ∧
    (aio_resolve g l p c).results.map Prod.fst = l := by
  constructor
  · simp [aio_resolve]
  · simp only [aio_resolve, List.map_map]
    have hc : (Prod.fst ∘ aiodns_query_a g) = id := by
      funext h
      exact aiodns_query_a_fst g h
    rw [hc, List.map_id]

/-- C4 witness: the cardinality theorem instantiated on a concrete two-element
hostname list. -/
theorem C4_witness :
    ((["a.example.com", "b.example.com"] : List String) ≠ [] ∧
      (["a.example.com", "b.example.com"] : List String).Nodup) ∧
    ((aio_resolve sampleOracle ["a.example.com", "b.example.com"] 2 4).results.length = 2 ∧
      (aio_resolve sampleOracle ["a.example.com", "b.example.com"] 2 4).results.map Prod.fst =
        ["a.example.com", "b.example.com"]) :=
  ⟨⟨by decide, by decide⟩,
   C4_cardinality sampleOracle ["a.example.com", "b.example.com"] 2 4
     (by decide) (by decide)⟩

/-- C5: `filter_subdomain` returns, in their original order, exactly the names
of the records whose `ips` field is falsy, and every name it returns is the
name of such a still-pending record — never of one that already carries an
address. -/
theorem C5_select_pending (l : List HostRecord) :
    filter_subdomain l = (l.filter (fun d => !pyTruthy d.ips)).map (fun d => d.subdomain) ∧
    ∀ s, s ∈ filter_subdomain l →
      ∃ r, r ∈ l ∧ pyTruthy r.ips = false ∧ r.subdomain = s := by
  refine ⟨filter_subdomain_eq l, ?_⟩
  intro s hs
  exact (mem_filter_subdomain l s).mp hs

/-- C5 witness: on a concrete list with one pending and one resolved record,
the returned name comes from the pending record. -/
theorem C5_witness :
    ("a.example.com" ∈ filter_subdomain [sampleA, sampleResolved]) ∧
    (∃ r, r ∈ [sampleA, sampleResolved] ∧ pyTruthy r.ips = false ∧
      r.subdomain = "a.example.com") :=
  ⟨by decide,
   (C5_select_pending [sampleA, sampleResolved]).2 "a.example.com" (by decide)⟩

/-- C6: `merge` is idempotent — whenever `update_data` succeeds, merging the
same outcome map into the already-merged record list reproduces that list
unchanged, whether the records were filled from success or failure entries. -/
theorem C6_merge_idempotent (l l2 : List HostRecord) (d : List (String × ValueDict))
    (h : update_data l d = some l2) : update_data l2 d = some l2 :=
  update_data_idem h

/-- C6 witness: idempotence instantiated on a concrete list holding a record
filled from a success entry, one filled from a failure entry, and one already
resolved. -/
theorem C6_witness :
    (update_data [sampleA, sampleB, sampleResolved] sampleDict =
      some [updateRecord sampleA sampleSuccessEntry,
        updateRecord sampleB sampleFailureEntry, sampleResolved]) ∧
    update_data
        [updateRecord sampleA sampleSuccessEntry,
          updateRecord sampleB sampleFailureEntry, sampleResolved] sampleDict =
      some [updateRecord sampleA sampleSuccessEntry,
        updateRecord sampleB sampleFailureEntry, sampleResolved] :=
  ⟨by decide,
   C6_merge_idempotent [sampleA, sampleB, sampleResolved]
     [updateRecord sampleA sampleSuccessEntry,
       updateRecord sampleB sampleFailureEntry, sampleResolved]
     sampleDict (by decide)⟩

/-- C7: a record whose `ips` is already truthy before the batch is excluded
from the pending selection (names being unique) and survives a successful
merge completely unchanged — every field identical — even when its hostname is
a key of the outcome map being merged. -/
theorem C7_resolved_record_frame (l l2 : List HostRecord)
    (d : List (String × ValueDict)) (i : Nat) (hi : i < l.length)
    (ht : pyTruthy (l.get ⟨i, hi⟩).ips = true)
    (hnd : (l.map (fun r => r.subdomain)).Nodup)
    (hu : update_data l d = some l2) :
    (l.get ⟨i, hi⟩).subdomain ∉ filter_subdomain l ∧
    ∃ hi2 : i < l2.length, l2.get ⟨i, hi2⟩ = l.get ⟨i, hi⟩ := by
  constructor
  · intro hmem
    obtain ⟨r, hr, hp, hs⟩ := (mem_filter_subdomain l _).mp hmem
    have hinj := List.inj_on_of_nodup_map hnd
    have heq : r = l.get ⟨i, hi⟩ := hinj hr (List.get_mem l i hi) hs
    rw [heq] at hp
    rw [hp] at ht
    cases ht
  · have hlen := update_data_length hu
    have hi2 : i < l2.length := by rw [hlen]; exact hi
    refine ⟨hi2, ?_⟩
    have hx := update_data_get hu i hi hi2
    rw [applyOutcome_truthy ht] at hx
    exact (Option.some.inj hx).symm

/-- C7 witness: the frame theorem instantiated on a record already carrying
`9.9.9.9`, with its hostname present as a key of the merged outcome map. -/
theorem C7_witness :
    (pyTruthy (([sampleA, sampleResolved].get ⟨1, by decide⟩).ips) = true ∧
      ([sampleA, sampleResolved].map (fun r => r.subdomain)).Nodup ∧
      update_data [sampleA, sampleResolved] sampleDict =
        some [updateRecord sampleA sampleSuccessEntry, sampleResolved]) ∧
    (([sampleA, sampleResolved].get ⟨1, by decide⟩).subdomain ∉
        filter_subdomain [sampleA, sampleResolved] ∧
      ∃ hi2 : 1 < [updateRecord sampleA sampleSuccessEntry, sampleResolved].length,
        [updateRecord sampleA sampleSuccessEntry, sampleResolved].get ⟨1, hi2⟩ =
          [sampleA, sampleResolved].get ⟨1, by decide⟩) :=
  ⟨⟨by decide, by decide, by decide⟩,
   C7_resolved_record_frame [sampleA, sampleResolved]
     [updateRecord sampleA sampleSuccessEntry, sampleResolved] sampleDict 1
     (by decide) (by decide) (by decide) (by decide)⟩

/-- C8: `aiodns_query_a` always returns the pair `(hostname, answer)`;
whenever the underlying resolution raises, the exception is caught and
returned as the answer value instead of propagating to the caller. -/
theorem C8_no_fault_escapes (g : String → RawResult) (hostname : String) :
    (aiodns_query_a g hostname).1 = hostname ∧
    ∀ e, g hostname = RawResult.raised e →
      (aiodns_query_a g hostname).2 = Answer.exc e := by
  refine ⟨aiodns_query_a_fst g hostname, ?_⟩
  intro e he
  simp [aiodns_query_a, he]

/-- C8 witness: the no-escape theorem instantiated on a host whose resolution
raises a timeout exception. -/
theorem C8_witness :
    (sampleOracle "b.example.com" =
      RawResult.raised { isException := true, args := ["timeout"] }) ∧
    ((aiodns_query_a sampleOracle "b.example.com").1 = "b.example.com" ∧
      (aiodns_query_a sampleOracle "b.example.com").2 =
        Answer.exc { isException := true, args := ["timeout"] }) :=
  ⟨by decide,
   ⟨(C8_no_fault_escapes sampleOracle "b.example.com").1,
    (C8_no_fault_escapes sampleOracle "b.example.com").2 _ (by decide)⟩⟩

/-- C9 counterexample: even on the empty hostname list, `aio_resolve`
schedules the progress monitor and creates the worker pool — the
`run_in_executor` call (line 162) and the `aiomp.Pool` construction (line 164)
run unconditionally — refuting the claim that no worker and no monitor loop
are started. -/
theorem C9_counterexample :
    (aio_resolve sampleOracle [] 2 4).monitor_started = true ∧
    (aio_resolve sampleOracle [] 2 4).pool_processes = 2 := by
  decide

/-- C9 (amended): on the empty hostname list `aio_resolve` still starts the
monitor (with `total = 0`) and still creates the pool, but it returns the
empty outcome sequence, performs no progress increment, and the monitor loop
observing `total = 0` terminates after its very first poll instead of
spinning. -/
theorem C9_empty_batch (g : String → RawResult) (p c : Nat) :
    (aio_resolve g [] p c).results = [] ∧
    (aio_resolve g [] p c).monitor_total = 0 ∧
    (aio_resolve g [] p c).progress_puts = 0 ∧
    (aio_resolve g [] p c).monitor_started = true ∧
    ∀ fuel : Nat, resolve_progress (fun _ => 0) 0 (fuel + 1) = some 1 := by
  refine ⟨rfl, rfl, rfl, rfl, ?_⟩
  intro fuel
  simp [resolve_progress, monitorLoop]

/-- C10: a record whose `ips` holds the empty string (exactly what converting
a success with an empty address tuple produces, third conjunct) or `None`
counts as still pending by truthiness: its name is selected again by
`filter_subdomain`, and a successful `update_data` overwrites its resolution
fields with the looked-up entry. -/
theorem C10_truthiness (l l2 : List HostRecord) (d : List (String × ValueDict))
    (i : Nat) (hi : i < l.length)
    (hq : (l.get ⟨i, hi⟩).ips = some "" ∨ (l.get ⟨i, hi⟩).ips = none) :
    (l.get ⟨i, hi⟩).subdomain ∈ filter_subdomain l ∧
    (update_data l d = some l2 →
      ∃ v, dictGet d (l.get ⟨i, hi⟩).subdomain = some v ∧
        ∃ hi2 : i < l2.length, l2.get ⟨i, hi2⟩ = updateRecord (l.get ⟨i, hi⟩) v) ∧
    ∀ (host : String) (al : List String),
      (answerValue (Answer.tuple host al [])).ips = some "" := by
  have hfalse : pyTruthy (l.get ⟨i, hi⟩).ips = false := by
    rcases hq with h | h <;> rw [h] <;> rfl
  refine ⟨?_, ?_, fun host al => rfl⟩
  · exact (mem_filter_subdomain l _).mpr ⟨l.get ⟨i, hi⟩, List.get_mem l i hi, hfalse, rfl⟩
  · intro hu
    have hlen := update_data_length hu
    have hi2 : i < l2.length := by rw [hlen]; exact hi
    have hx := update_data_get hu i hi hi2
    simp only [applyOutcome, hfalse, Bool.false_eq_true, if_false] at hx
    cases hg : dictGet d (l.get ⟨i, hi⟩).subdomain with
    | none => rw [hg] at hx; cases hx
    | some v =>
        rw [hg] at hx
        simp only [Option.some.injEq] at hx
        exact ⟨v, rfl, hi2, hx.symm⟩

/-- C10 witness: truthiness-pendingness instantiated on the record whose `ips`
is the empty string; merging overwrites it with the timeout failure entry. -/
theorem C10_witness :
    (([sampleB].get ⟨0, by decide⟩).ips = some "" ∨
      ([sampleB].get ⟨0, by decide⟩).ips = none) ∧
    (([sampleB].get ⟨0, by decide⟩).subdomain ∈ filter_subdomain [sampleB] ∧
      (update_data [sampleB] sampleDict = some [updateRecord sampleB sampleFailureEntry] →
        ∃ v, dictGet sampleDict ([sampleB].get ⟨0, by decide⟩).subdomain = some v ∧
          ∃ hi2 : 0 < [updateRecord sampleB sampleFailureEntry].length,
            [updateRecord sampleB sampleFailureEntry].get ⟨0, hi2⟩ =
              updateRecord ([sampleB].get ⟨0, by decide⟩) v) ∧
      ∀ (host : String) (al : List String),
        (answerValue (Answer.tuple host al [])).ips = some "") :=
  ⟨Or.inl (by decide),
   C10_truthiness [sampleB] [updateRecord sampleB sampleFailureEntry] sampleDict 0
     (by decide) (Or.inl (by decide))⟩

end OneForAll
